import Mathlib

/-!
Verification of the roster / recipient / prompt core of the KCH meeting
assistant (src/app.py) against its specification.  The Python functions are
shallowly embedded: pandas cells become an explicit `Cell` type (string,
boolean, or missing value), DataFrames become header lists plus rows of
cells, and string primitives (`str.strip`, `str.lower`, `str.splitlines`,
`str.split`) are modelled on `List Char`.  Whitespace is `Char.isWhitespace`
and line breaks are modelled as the newline character.
-/

namespace App

/-- A pandas cell as the app produces and consumes it: a string, a boolean
(the `IsCCDefault` column), or a missing value (`NaN`).  Numeric cells do not
arise on the modelled paths (uploaded text columns and the in-app editors
yield strings and booleans). -/
inductive Cell where
  | str (s : String)
  | boolv (x : Bool)
  | na
deriving DecidableEq, Repr

/-- Python `str.strip` on the underlying character list. -/
def stripChars (l : List Char) : List Char :=
  List.rdropWhile Char.isWhitespace (List.dropWhile Char.isWhitespace l)

/-- Python `str.strip`. -/
def pstrip (s : String) : String := ⟨stripChars s.data⟩

/-- Python `str.lower`. -/
def plower (s : String) : String := ⟨s.data.map Char.toLower⟩

/-- Python `str(value)` of the cell values occurring in the app:
`str` of a string is itself, of `True`/`False` the capitalised words, and of
a float `nan` the text `"nan"`. -/
def pyStr : Cell → String
  | Cell.str s => s
  | Cell.boolv true => "True"
  | Cell.boolv false => "False"
  | Cell.na => "nan"

/-- `fillna("").astype(str).str.strip()` applied to one cell: the coercion
`roster_norm` and `ext_norm` apply to every non-boolean column. -/
def coerceStr : Cell → String
  | Cell.na => ""
  | c => pstrip (pyStr c)

/-- `b` from src/app.py: boolean coercion.  A genuine boolean passes through;
anything else is stringified, trimmed, lower-cased and compared against the
truthy set. -/
def b (v : Cell) : Bool :=
  match v with
  | Cell.boolv x => x
  | _ => (["1", "true", "yes", "y", "on"] : List String).contains (plower (pstrip (pyStr v)))

/-- The recursive worker of `uniq`, with the `seen` set of lower-cased keys
carried as a list. -/
def uniqGo (seen : List String) : List String → List String
  | [] => []
  | x :: rest =>
    let x' := pstrip x
    if x' = "" then uniqGo seen rest
    else if plower x' ∈ seen then uniqGo seen rest
    else x' :: uniqGo (plower x' :: seen) rest

/-- `uniq` from src/app.py: strip every item, drop empties, and deduplicate
by lower-cased value keeping the first occurrence. -/
def uniq (items : List String) : List String := uniqGo [] items

/-- `REQ_COLS` from src/app.py. -/
def REQ_COLS : List String := ["Name", "Email"]

/-- `OPT_COLS` from src/app.py. -/
def OPT_COLS : List String :=
  ["Dept", "Title", "Team", "Role", "Lang", "Timezone", "IsCCDefault", "ManagerEmail"]

/-- An uploaded table: the header row and the data rows (cells aligned with
the headers; a row index beyond a row's length reads as a missing cell). -/
structure Table where
  headers : List String
  rows : List (List Cell)
deriving DecidableEq, Repr

/-- One normalized roster record, the row shape `roster_norm` produces. -/
structure RosterRecord where
  Name : String
  Email : String
  Dept : String
  Title : String
  Team : String
  Role : String
  Lang : String
  Timezone : String
  IsCCDefault : Bool
  ManagerEmail : String
deriving DecidableEq, Repr

/-- Index of the column a canonical name resolves to.  `roster_norm` builds
its alias map from every column in order, so when several headers match
case-insensitively after trimming, the last one wins. -/
def lastMatchIdx (hs : List String) (col : String) : Option Nat :=
  match hs with
  | [] => none
  | h :: rest =>
    match lastMatchIdx rest col with
    | some j => some (j + 1)
    | none => if plower (pstrip h) = plower col then some 0 else none

/-- The value of a non-boolean canonical column in one row, after alias
resolution and string coercion; a column absent from the table is synthesized
as the empty string. -/
def strField (hs : List String) (row : List Cell) (col : String) : String :=
  match lastMatchIdx hs col with
  | some i => coerceStr (row.getD i Cell.na)
  | none => ""

/-- The value of the `IsCCDefault` column in one row; absent, it is
synthesized as `False` (and `b False = false`). -/
def boolField (hs : List String) (row : List Cell) : Bool :=
  match lastMatchIdx hs "IsCCDefault" with
  | some i => b (row.getD i Cell.na)
  | none => false

/-- One row of the table as `roster_norm` normalizes it. -/
def recordOfRow (hs : List String) (row : List Cell) : RosterRecord where
  Name := strField hs row "Name"
  Email := strField hs row "Email"
  Dept := strField hs row "Dept"
  Title := strField hs row "Title"
  Team := strField hs row "Team"
  Role := strField hs row "Role"
  Lang := strField hs row "Lang"
  Timezone := strField hs row "Timezone"
  IsCCDefault := boolField hs row
  ManagerEmail := strField hs row "ManagerEmail"

/-- `roster_norm` from src/app.py: resolve column aliases, fail when a
required column is missing, coerce cells, and drop rows whose `Name` and
`Email` are both empty after trimming. -/
def roster_norm (t : Table) : Except String (List RosterRecord) :=
  let miss := REQ_COLS.filter (fun c => (lastMatchIdx t.headers c).isNone)
  if miss = [] then
    Except.ok ((t.rows.map (recordOfRow t.headers)).filter
      (fun r => !(r.Name == "" && r.Email == "")))
  else
    Except.error ("필수 컬럼 누락: " ++ String.intercalate ", " miss)

/-- A row of the external-participants editor before normalization. -/
structure ExtRow where
  Name : Cell
  Email : Cell
deriving DecidableEq, Repr

/-- `ext_norm` from src/app.py: coerce both columns to trimmed strings and
drop rows where both are empty. -/
def ext_norm (l : List ExtRow) : List (String × String) :=
  (l.map (fun r => (coerceStr r.Name, coerceStr r.Email))).filter
    (fun p => !(p.1 == "" && p.2 == ""))

/-- A resolved recipient as `build_recipients` produces it. -/
structure Recipient where
  name : String
  email : String
  team : String
  title : String
  manager : String
  cc_default : Bool
deriving DecidableEq, Repr

/-- The roster-derived candidate recipients: selected rows (none when the
selection is empty) with a non-empty trimmed email. -/
def rosterRecipients (roster : List RosterRecord) (names : List String) : List Recipient :=
  let rows := if names = [] then [] else roster.filter (fun r => names.contains r.Name)
  rows.filterMap (fun r =>
    let email := pstrip r.Email
    if email = "" then none
    else some
      { name := if pstrip r.Name = "" then email else pstrip r.Name
        email := email
        team := pstrip r.Team
        title := pstrip r.Title
        manager := pstrip r.ManagerEmail
        cc_default := b (Cell.boolv r.IsCCDefault) })

/-- The external candidate recipients: every `ext_norm` row with a non-empty
trimmed email, carrying empty metadata. -/
def extRecipients (ext : List ExtRow) : List Recipient :=
  (ext_norm ext).filterMap (fun p =>
    let email := pstrip p.2
    if email = "" then none
    else some
      { name := if pstrip p.1 = "" then email else pstrip p.1
        email := email
        team := ""
        title := ""
        manager := ""
        cc_default := false })

/-- The concatenated candidate list `rec` that `build_recipients` builds
before deduplication: roster rows first, external rows after. -/
def recipCandidates (roster : List RosterRecord) (names : List String)
    (ext : List ExtRow) : List Recipient :=
  rosterRecipients roster names ++ extRecipients ext

/-- The deduplication loop of `build_recipients`: keep a recipient when its
lower-cased email is not in `seen`. -/
def dedupeRec (seen : List String) : List Recipient → List Recipient
  | [] => []
  | r :: rest =>
    if plower r.email ∈ seen then dedupeRec seen rest
    else r :: dedupeRec (plower r.email :: seen) rest

/-- `build_recipients` from src/app.py. -/
def build_recipients (roster : List RosterRecord) (names : List String)
    (ext : List ExtRow) : List Recipient :=
  dedupeRec [] (recipCandidates roster names ext)

/-- `cc_for` from src/app.py: manual CC, manager auto-CC when enabled and
known, `uniq`, then drop the recipient's own address. -/
def cc_for (recipient : Recipient) (manual_cc : List String) : List String :=
  let cc := manual_cc ++
    (if recipient.cc_default = true ∧ recipient.manager ≠ "" then [recipient.manager] else [])
  let cc := uniq cc
  let toAddr := plower recipient.email
  cc.filter (fun x => !(plower x == toAddr))

/-- Python `text.split(sep)` on character lists. -/
def splitCharsAux (sep : Char) : List Char → List Char → List (List Char)
  | [], acc => [acc.reverse]
  | c :: rest, acc =>
    if c = sep then acc.reverse :: splitCharsAux sep rest []
    else splitCharsAux sep rest (c :: acc)

/-- Python `text.splitlines()` for text whose only line break is the newline
character (the stripped text the splitter sees): an empty string yields no
lines, otherwise split on the newline character. -/
def pylines (s : String) : List String :=
  if s = "" then [] else (splitCharsAux '\n' s.data []).map (fun l => ⟨l⟩)

/-- Python `"\n".join(lines)`. -/
def joinNL : List String → String
  | [] => ""
  | [x] => x
  | x :: rest => x ++ "\n" ++ joinNL rest

/-- `line.split(":", 1)[1]`: everything after the first colon.  The caller
guards with a `subject:` prefix check, so a colon is present. -/
def afterFirstColon (s : String) : String :=
  ⟨(s.data.dropWhile (fun c => !(c == ':'))).drop 1⟩

/-- `parse_subject_body` from src/app.py. -/
def parse_subject_body (text fallback : String) : String × String :=
  let lines := pylines (pstrip text)
  match lines with
  | l0 :: rest =>
    if "subject:".data.isPrefixOf (plower l0).data then
      let sub := pstrip (afterFirstColon l0)
      ((if sub = "" then fallback else sub), pstrip (joinNL rest))
    else (fallback, pstrip text)
  | [] => (fallback, pstrip text)

/-- The meeting metadata dictionary `meta_from_state` builds: every key is
always present, so a structure of strings is faithful. -/
structure MeetingMeta where
  title : String
  datetime : String
  location : String
  host : String
  note_taker : String
  participants : String
  refs : String
  security : String
deriving DecidableEq, Repr

/-- The free-text payload passed to `build_prompt`: a string-keyed dictionary. -/
def Payload : Type := List (String × String)

/-- Python `p.get(key, "")`. -/
def pget (p : Payload) (k : String) : String := (List.lookup k p).getD ""

/-- `common_meta` from src/app.py: the shared instruction header and meeting
metadata block. -/
def common_meta (m : MeetingMeta) : String :=
  "[공통 지시]\n- 너는 KCH Global의 \"회의 운영/회의록\" 담당자다.\n- 사실만 기반으로 작성하고, 메모/녹취에 없는 내용은 만들지 말 것.\n- 불명확하면 (확인 필요)/(결정 보류)/(추가 데이터 필요)로 표기.\n- 출력 형식은 지정된 섹션/표를 반드시 따른다.\n\n[회의 메타]\n- 회의명: "
    ++ m.title ++ "\n- 일시: " ++ m.datetime ++ "\n- 장소/채널: " ++ m.location
    ++ "\n- 진행자: " ++ m.host ++ "\n- 서기: " ++ m.note_taker
    ++ "\n- 참석자: " ++ m.participants ++ "\n- 참조 링크/자료: " ++ m.refs
    ++ "\n- 보안등급: " ++ m.security ++ "\n"

/-- The memo template of `build_prompt` (kind `"memo"`). -/
def memoTemplate (cm : String) (p : Payload) : String :=
  cm ++ "\n[작업]\n아래 메모를 임원 공유 가능한 회의록으로 정리해라.\n\n[출력 형식 — 반드시 준수]\n# 회의록\n## 1) 회의 개요\n- 목적:\n- 배경:\n- 참석자:\n- 회의 범위(오늘 다룬 것 / 다루지 않은 것):\n## 2) 주요 논의 내용\n- 안건 1: \x7b안건명\x7d\n  - 현황/문제 정의:\n  - 핵심 논점(찬반/대안 비교 포함):\n  - 근거(메모 데이터/사실):\n  - 리스크/우려:\n  - 미결 질문(확인 필요):\n## 3) 결정 사항 (Decision Log)\n- [결정] D1. ___\n- [보류] H1. ___\n## 4) 액션 아이템 (Action Items)\n| No | To-do | 담당자 | 마감일 | 우선순위(H/M/L) | 상태(신규/진행/보류) | 비고 |\n|---|------|------|------|----------------|---------------------|-----|\n\n[메모]\n<메모>: "
    ++ pget p "memo_text" ++ "\n"

/-- The transcript template of `build_prompt` (kind `"transcript"`). -/
def transcriptTemplate (cm : String) (p : Payload) : String :=
  cm ++ "\n[작업]\n아래 녹취(전사)를 1페이지 요약 회의록으로 작성하라.\n\n[출력 형식 — 반드시 준수]\n# 1p 요약 회의록\n## 핵심 결론 (3~6줄)\n- …\n## 합의된 내용 / 결정 사항 (최대 7개)\n- D1. …\n## 핵심 논의 요약 (안건별 2~4줄)\n- 안건1: …\n## 리스크 / 쟁점 / 확인 필요\n- 리스크:\n- 쟁점:\n- 확인 필요:\n## 액션 아이템 (Top 5)\n| To-do | 담당자 | 마감일 | 비고 |\n|------|------|------|-----|\n\n[녹취]\n<녹음본>: "
    ++ pget p "transcript_text" ++ "\n"

/-- The agenda template of `build_prompt` (kind `"agenda"`). -/
def agendaTemplate (cm : String) (p : Payload) : String :=
  cm ++ "\n[작업]\n아래 회의 목적/배경으로 60분 안건과 진행 순서를 제안하라.\n\n[출력 형식 — 반드시 준수]\n# 60분 회의 안건(Agenda)\n## 회의 목표 (1문장)\n- …\n## 타임테이블\n| 순서 | 안건 | 목적 | 예상시간 | 진행 방식(설명/토론/결정) | 산출물 | Decision Point |\n|-----|------|------|---------|--------------------------|--------|----------------|\n| 1 | … | … | 5m | … | … | Y/N |\n## 사전 준비(Pre-read)\n- …\n## 회의 진행 룰(권장)\n- 시간 초과 시 컷오프 기준:\n- 의사결정 기준:\n- 주차(Parking lot) 규칙:\n\n[회의 목적/배경]\n<회의 목적/배경>: "
    ++ pget p "purpose" ++ "\n"

/-- The invite template of `build_prompt` (kind `"invite"`). -/
def inviteTemplate (cm : String) (p : Payload) : String :=
  cm ++ "\n[작업]\n아래 회의 정보를 바탕으로 캘린더 초대 설명 문구를 작성하라.\n\n[출력 형식 — 반드시 준수]\n[회의 목적]\n- …\n[주요 안건]\n- 1) …\n[참여자]\n- …\n[소요 시간]\n- …\n[회의 장소/접속]\n- …\n[사전 준비/자료]\n- …\n[회의에서 결정할 것]\n- …\n\n<회의 정보>: "
    ++ pget p "meeting_info" ++ "\n"

/-- The follow-up template of `build_prompt` (kind `"followup"`). -/
def followupTemplate (cm : String) (p : Payload) : String :=
  cm ++ "\n[작업]\n아래 회의 요약으로 개인별 Follow-up 이메일을 작성하라.\n\n[출력 형식 — 반드시 준수]\nSubject: "
    ++ pget p "subject" ++ "\n\n안녕하세요, " ++ pget p "recipient_name"
    ++ "님.\n1) 감사합니다\n- …\n2) 오늘 합의/결정된 내용 요약\n- …\n3) "
    ++ pget p "recipient_name"
    ++ "님의 할 일 (우선순위 순)\n- [ ] … (마감: …)\n4) 전체 액션아이템(참고)\n- …\n5) 다음 일정\n- 다음 회의: …\n- 필요 시: …\n6) 참고 링크/회의록\n- 회의록(Google Doc): "
    ++ pget p "doc_url" ++ "\n- 기타: " ++ pget p "refs" ++ "\n\n감사합니다.\n"
    ++ pget p "signature" ++ "\n\n<회의 요약>: " ++ pget p "summary" ++ "\n"

/-- `build_prompt` from src/app.py: dispatch on the template kind; an
unrecognized kind raises (modelled as `Except.error`), producing no output. -/
def build_prompt (kind : String) (m : MeetingMeta) (p : Payload) : Except String String :=
  let cm := common_meta m
  if kind = "memo" then Except.ok (memoTemplate cm p)
  else if kind = "transcript" then Except.ok (transcriptTemplate cm p)
  else if kind = "agenda" then Except.ok (agendaTemplate cm p)
  else if kind = "invite" then Except.ok (inviteTemplate cm p)
  else if kind = "followup" then Except.ok (followupTemplate cm p)
  else Except.error ("지원하지 않는 템플릿: " ++ kind)

/-- The text values `pandas.read_excel` reads back as missing (its documented
default NA markers); an empty cell also reads as missing. -/
def naStrings : List String :=
  ["", "#N/A", "#N/A N/A", "#NA", "-1.#IND", "-1.#QNAN", "-NaN", "-nan",
   "1.#IND", "1.#QNAN", "<NA>", "N/A", "NA", "NULL", "NaN", "None", "n/a", "nan", "null"]

/-- One string field of a record after `roster_to_xlsx` writes it and
`pandas.read_excel` reads it back: an empty string becomes an empty cell, an
NA marker is read back as missing, and other text is modelled as verbatim.
The verbatim branch is faithful only for text that is not `fragileCell`:
the reader retypes a column whose every value is numeric-looking or
boolean-looking text (e.g. `"007"` to the number 7, `"TRUE"` to a boolean),
and the writer treats leading-`=` text as a formula and rejects control
characters.  The round-trip theorem therefore restricts itself to records
whose fields are not fragile. -/
def mkCell (s : String) : Cell :=
  if s ∈ naStrings then Cell.na else Cell.str s

/-- Text the spreadsheet writer or reader may drop, retype, or reject, so
the verbatim branch of `mkCell` is not guaranteed for it: a non-empty NA
marker (read back as missing); text containing a digit or an infinity word
(a column of numeric-looking text is retyped to numbers); boolean-looking
text in any casing (a column of it is retyped to booleans); leading-`=`
text (written as a formula, whose cached value is empty); and control
characters (the writer rejects them).  A conservative over-approximation:
excluding all such text guarantees no column of the serialized sheet is
eligible for the reader's all-or-nothing column retyping. -/
def fragileCell (s : String) : Bool :=
  (naStrings.contains s && !(s == ""))
  || s.data.any (fun c => c.isDigit)
  || (["true", "false", "inf", "+inf", "-inf",
       "infinity", "+infinity", "-infinity"] : List String).contains (plower s)
  || (match s.data with | '=' :: _ => true | _ => false)
  || s.data.any (fun c => decide (c.toNat < 32))

/-- One record as a row of the re-read spreadsheet. -/
def rowOfRecord (r : RosterRecord) : List Cell :=
  [mkCell r.Name, mkCell r.Email, mkCell r.Dept, mkCell r.Title, mkCell r.Team,
   mkCell r.Role, mkCell r.Lang, mkCell r.Timezone, Cell.boolv r.IsCCDefault,
   mkCell r.ManagerEmail]

/-- The table obtained by serializing normalized records with
`roster_to_xlsx` (canonical header order, `index=False`) and reading the
sheet back with `pandas.read_excel`. -/
def roster_roundtrip_table (recs : List RosterRecord) : Table :=
  { headers := REQ_COLS ++ OPT_COLS, rows := recs.map rowOfRecord }

/-! ## Reference definitions written from the spec's words
Each is compared with the corresponding definition translated from
src/app.py; they exist only to state refinement claims. -/

/-- Spec §4.4 / claim C3, read literally: start from the manual CC list, append
the manager when `cc_default` holds and the manager is non-empty, deduplicate
case-insensitively keeping the first occurrence of each entry verbatim, then
remove entries whose lower-cased value equals the recipient's own
lower-cased email.  (No trimming is mentioned.) -/
def specEffectiveCc (recipient : Recipient) (manualCc : List String) : List String :=
  let base := manualCc ++
    (if recipient.cc_default = true ∧ recipient.manager ≠ "" then [recipient.manager] else [])
  let deduped := base.foldl
    (fun acc x => if acc.any (fun y => plower y == plower x) then acc else acc ++ [x]) []
  deduped.filter (fun x => !(plower x == plower recipient.email))

/-- Claim C3 amended: like `specEffectiveCc`, but during deduplication each
entry is trimmed and entries empty after trimming are dropped. -/
def specEffectiveCcTrimmed (recipient : Recipient) (manualCc : List String) : List String :=
  let base := manualCc ++
    (if recipient.cc_default = true ∧ recipient.manager ≠ "" then [recipient.manager] else [])
  let deduped := base.foldl
    (fun acc x =>
      let x' := pstrip x
      if x' = "" then acc
      else if acc.any (fun y => plower y == plower x') then acc else acc ++ [x']) []
  deduped.filter (fun x => !(plower x == plower recipient.email))

/-- Spec §4.1 / claim C7: boolean coercion by the spec's rule — a boolean
passes through, anything else is true exactly when its stringified, trimmed,
lower-cased form is one of the five truthy words. -/
def specCoerceBool (v : Cell) : Bool :=
  match v with
  | Cell.boolv x => x
  | _ =>
    let s := plower (pstrip (pyStr v))
    decide (s = "1" ∨ s = "true" ∨ s = "yes" ∨ s = "y" ∨ s = "on")

/-- Spec §4.5 / claim C6: the splitter by the spec's words — when the first
line of the trimmed text case-insensitively starts with `"Subject:"`, the
subject is everything after that line's first colon, trimmed, with the
fallback substituted for an empty result, and the body is the remaining
lines joined back and trimmed; otherwise the fallback and the whole trimmed
text. -/
def specSplitSubjectBody (generatedText fallbackSubject : String) : String × String :=
  let t := pstrip generatedText
  match pylines t with
  | [] => (fallbackSubject, t)
  | first :: rest =>
    if (plower first).data.take 8 = "subject:".data then
      let sub := pstrip ⟨first.data.drop (first.data.findIdx (fun c => c == ':') + 1)⟩
      ((if sub = "" then fallbackSubject else sub), pstrip (joinNL rest))
    else (fallbackSubject, t)

/-! ## Concrete records used by the examples and witnesses -/

/-- The recipient of the spec's CC example (§8.7). -/
def ccExampleRecipient : Recipient :=
  { name := "a", email := "a@x.com", team := "", title := "",
    manager := "boss@x.com", cc_default := true }

/-- The spec example roster row (§8.6). -/
def kimRosterRow : RosterRecord :=
  { Name := "Kim", Email := "kim@x.com", Dept := "", Title := "", Team := "", Role := "",
    Lang := "", Timezone := "", IsCCDefault := true, ManagerEmail := "boss@x.com" }

/-- The recipient the spec example expects `build_recipients` to return. -/
def kimRecipient : Recipient :=
  { name := "Kim", email := "kim@x.com", team := "", title := "",
    manager := "boss@x.com", cc_default := true }

/-- Every string field of the record is reader-stable (`fragileCell` on no
field), so the record survives the spreadsheet round trip. -/
def stableRec (r : RosterRecord) : Prop :=
  fragileCell r.Name = false ∧ fragileCell r.Email = false ∧ fragileCell r.Dept = false
    ∧ fragileCell r.Title = false ∧ fragileCell r.Team = false ∧ fragileCell r.Role = false
    ∧ fragileCell r.Lang = false ∧ fragileCell r.Timezone = false
    ∧ fragileCell r.ManagerEmail = false

instance (r : RosterRecord) : Decidable (stableRec r) := by
  unfold stableRec; infer_instance

/-- A minimal accepted table for the witnesses. -/
def witnessTable : Table :=
  { headers := ["Name", "Email"],
    rows := [[Cell.str "Kim", Cell.str "kim@x.com"], [Cell.str " ", Cell.str ""]] }

/-- The single record `roster_norm` keeps from `witnessTable`. -/
def witnessRecord : RosterRecord :=
  { Name := "Kim", Email := "kim@x.com", Dept := "", Title := "", Team := "", Role := "",
    Lang := "", Timezone := "", IsCCDefault := false, ManagerEmail := "" }

/-- The record a round trip corrupts: `"NA"` is a reader NA marker. -/
def naMarkerRecord : RosterRecord :=
  { Name := "NA", Email := "na@x.com", Dept := "", Title := "", Team := "", Role := "",
    Lang := "", Timezone := "", IsCCDefault := false, ManagerEmail := "" }

/-- What the round trip actually returns for `naMarkerRecord`: its `Name`
comes back as a missing cell and normalizes to the empty string. -/
def naMarkerRecordRead : RosterRecord :=
  { Name := "", Email := "na@x.com", Dept := "", Title := "", Team := "", Role := "",
    Lang := "", Timezone := "", IsCCDefault := false, ManagerEmail := "" }

/-! ## String-primitive lemmas -/

theorem stripChars_idem (l : List Char) : stripChars (stripChars l) = stripChars l := by
  unfold stripChars
  rcases hv : List.rdropWhile Char.isWhitespace (List.dropWhile Char.isWhitespace l) with _ | ⟨c, t⟩
  · simp [List.rdropWhile]
  · have hpre : (c :: t) <+: List.dropWhile Char.isWhitespace l := by
      rw [← hv]; exact List.rdropWhile_prefix _ _
    obtain ⟨s, hs⟩ := hpre
    have h0 : 0 < (List.dropWhile Char.isWhitespace l).length := by
      rw [← hs]; simp
    have hc0 := List.dropWhile_get_zero_not Char.isWhitespace l h0
    have hgc : (List.dropWhile Char.isWhitespace l).get ⟨0, h0⟩ = c := by
      simp [← hs]
    rw [hgc] at hc0
    have h2 : List.dropWhile Char.isWhitespace (c :: t) = c :: t := by
      rw [List.dropWhile_cons, if_neg hc0]
    rw [h2]
    have h3 := List.rdropWhile_idempotent Char.isWhitespace (List.dropWhile Char.isWhitespace l)
    rw [hv] at h3
    exact h3

/-- Python `strip` is idempotent. -/
theorem pstrip_idem (s : String) : pstrip (pstrip s) = pstrip s :=
  congrArg String.mk (stripChars_idem s.data)

/-- Coerced cell values are already trimmed. -/
theorem pstrip_coerceStr (c : Cell) : pstrip (coerceStr c) = coerceStr c := by
  cases c with
  | na => rfl
  | str s => exact pstrip_idem s
  | boolv x => cases x <;> decide

/-- Membership in the truthy set, as a decidable disjunction. -/
theorem contains_truthy (s : String) :
    (["1", "true", "yes", "y", "on"] : List String).contains s
      = decide (s = "1" ∨ s = "true" ∨ s = "yes" ∨ s = "y" ∨ s = "on") := by
  rw [Bool.eq_iff_iff]
  rw [List.elem_iff]
  simp

/-- The boolean coercion of the code agrees with the spec's rule on every cell. -/
theorem b_eq_specCoerceBool : ∀ v : Cell, b v = specCoerceBool v := by
  intro v
  cases v with
  | boolv x => rfl
  | str s =>
    simp only [b, specCoerceBool]
    exact contains_truthy _
  | na =>
    simp only [b, specCoerceBool]
    exact contains_truthy _

/-- The seen-set recursion of `uniq` agrees with the spec's left fold, as long
as the seen set holds exactly the lower-casings of the accumulated output. -/
theorem uniqGo_eq_foldl :
    ∀ (l : List String) (seen acc : List String),
      (∀ k, k ∈ seen ↔ ∃ y ∈ acc, plower y = k) →
      acc ++ uniqGo seen l = l.foldl
        (fun acc2 x =>
          let x' := pstrip x
          if x' = "" then acc2
          else if acc2.any (fun y => plower y == plower x') then acc2 else acc2 ++ [x']) acc := by
  intro l
  induction l with
  | nil => intro seen acc _; simp [uniqGo]
  | cons x rest ih =>
    intro seen acc hinv
    simp only [uniqGo, List.foldl_cons]
    by_cases hx : pstrip x = ""
    · rw [if_pos hx, if_pos hx]
      exact ih seen acc hinv
    · rw [if_neg hx, if_neg hx]
      by_cases hmem : plower (pstrip x) ∈ seen
      · rw [if_pos hmem]
        obtain ⟨y, hy, hply⟩ := (hinv _).mp hmem
        have hany : acc.any (fun y => plower y == plower (pstrip x)) = true := by
          rw [List.any_eq_true]
          exact ⟨y, hy, by rw [hply, beq_self_eq_true]⟩
        rw [if_pos hany]
        exact ih seen acc hinv
      · rw [if_neg hmem]
        have hany : acc.any (fun y => plower y == plower (pstrip x)) = false := by
          rw [Bool.eq_false_iff]
          intro hcontra
          obtain ⟨y, hy, hply⟩ := List.any_eq_true.mp hcontra
          exact hmem ((hinv _).mpr ⟨y, hy, beq_iff_eq.mp hply⟩)
        rw [hany, if_neg (by simp)]
        have hstep : acc ++ (pstrip x :: uniqGo (plower (pstrip x) :: seen) rest)
            = (acc ++ [pstrip x]) ++ uniqGo (plower (pstrip x) :: seen) rest := by
          simp
        rw [hstep]
        refine ih (plower (pstrip x) :: seen) (acc ++ [pstrip x]) ?_
        intro k
        constructor
        · intro hk
          rcases List.mem_cons.mp hk with rfl | hk2
          · exact ⟨pstrip x, by simp, rfl⟩
          · obtain ⟨y, hy, hply⟩ := (hinv k).mp hk2
            exact ⟨y, List.mem_append_left _ hy, hply⟩
        · rintro ⟨y, hy, hply⟩
          rcases List.mem_append.mp hy with hy1 | hy2
          · exact List.mem_cons_of_mem _ ((hinv k).mpr ⟨y, hy1, hply⟩)
          · rw [List.mem_singleton.mp hy2] at hply
            rw [← hply]
            exact List.mem_cons_self _ _

/-- The code's `subject:` prefix test agrees with taking the first eight
characters. -/
theorem marker_take (s : String) :
    "subject:".data.isPrefixOf s.data = true ↔ s.data.take 8 = "subject:".data := by
  rw [List.isPrefixOf_iff_prefix, List.prefix_iff_eq_take]
  have hlen : ("subject:".data.length) = 8 := by decide
  rw [hlen]
  constructor
  · intro h; exact h.symm
  · intro h; exact h.symm

/-- `split(":", 1)[1]` agrees with dropping up to and including the first
colon found by index. -/
theorem afterColon_drop (s : String) :
    afterFirstColon s = ⟨s.data.drop (s.data.findIdx (fun c => c == ':') + 1)⟩ := by
  unfold afterFirstColon
  congr 1
  generalize s.data = l
  induction l with
  | nil => rfl
  | cons c t ih =>
    by_cases hc : c = ':'
    · simp [List.dropWhile_cons, List.findIdx_cons, hc]
    · have hcb : (c == ':') = false := by simp [hc]
      simp [List.dropWhile_cons, List.findIdx_cons, hcb, ih]

/-! ## Deduplication-loop lemmas -/

/-- The deduplicated list is a sublist of the candidates: output order is
candidate order. -/
theorem dedupeRec_sublist (l : List Recipient) :
    ∀ seen, (dedupeRec seen l).Sublist l := by
  induction l with
  | nil => intro seen; simp [dedupeRec]
  | cons r rest ih =>
    intro seen
    simp only [dedupeRec]
    by_cases h : plower r.email ∈ seen
    · rw [if_pos h]
      exact (ih seen).cons r
    · rw [if_neg h]
      exact (ih _).cons₂ r

/-- Everything the deduplication keeps is the first candidate carrying its
lower-cased email, and its key was not previously seen. -/
theorem dedupeRec_mem_find (l : List Recipient) :
    ∀ seen r, r ∈ dedupeRec seen l →
      plower r.email ∉ seen
      ∧ l.find? (fun c => plower c.email == plower r.email) = some r := by
  induction l with
  | nil => intro seen r h; simp [dedupeRec] at h
  | cons c rest ih =>
    intro seen r h
    simp only [dedupeRec] at h
    by_cases hc : plower c.email ∈ seen
    · rw [if_pos hc] at h
      obtain ⟨hns, hfind⟩ := ih seen r h
      refine ⟨hns, ?_⟩
      have hne : (plower c.email == plower r.email) = false := by
        rw [beq_eq_false_iff_ne]
        intro he
        exact hns (he ▸ hc)
      rw [List.find?_cons, hne]
      exact hfind
    · rw [if_neg hc] at h
      rcases List.mem_cons.mp h with rfl | htail
      · exact ⟨hc, by rw [List.find?_cons, beq_self_eq_true]⟩
      · obtain ⟨hns, hfind⟩ := ih _ r htail
        have hnr : plower r.email ∉ seen := fun hmem => hns (List.mem_cons_of_mem _ hmem)
        have hne : plower r.email ≠ plower c.email := fun he =>
          hns (he ▸ List.mem_cons_self _ _)
        refine ⟨hnr, ?_⟩
        have hne2 : (plower c.email == plower r.email) = false := by
          rw [beq_eq_false_iff_ne]
          exact fun he => hne he.symm
        rw [List.find?_cons, hne2]
        exact hfind

/-- Every candidate's lower-cased email is either already seen or represented
in the deduplicated output. -/
theorem dedupeRec_covers (l : List Recipient) :
    ∀ seen c, c ∈ l →
      plower c.email ∈ seen
      ∨ ∃ o ∈ dedupeRec seen l, plower o.email = plower c.email := by
  induction l with
  | nil => intro seen c h; simp at h
  | cons x rest ih =>
    intro seen c hc
    simp only [dedupeRec]
    by_cases hx : plower x.email ∈ seen
    · rw [if_pos hx]
      rcases List.mem_cons.mp hc with rfl | hr
      · exact Or.inl hx
      · exact ih seen c hr
    · rw [if_neg hx]
      rcases List.mem_cons.mp hc with rfl | hr
      · exact Or.inr ⟨c, List.mem_cons_self _ _, rfl⟩
      · rcases ih (plower x.email :: seen) c hr with hin | ⟨o, ho, heq⟩
        · rcases List.mem_cons.mp hin with heq | hin2
          · exact Or.inr ⟨x, List.mem_cons_self _ _, heq.symm⟩
          · exact Or.inl hin2
        · exact Or.inr ⟨o, List.mem_cons_of_mem _ ho, heq⟩

/-- The deduplicated output has pairwise distinct lower-cased emails. -/
theorem dedupeRec_nodup (l : List Recipient) :
    ∀ seen, ((dedupeRec seen l).map (fun r => plower r.email)).Nodup := by
  induction l with
  | nil => intro seen; simp [dedupeRec]
  | cons x rest ih =>
    intro seen
    simp only [dedupeRec]
    by_cases hx : plower x.email ∈ seen
    · rw [if_pos hx]
      exact ih seen
    · rw [if_neg hx]
      simp only [List.map_cons, List.nodup_cons]
      refine ⟨?_, ih _⟩
      intro hmem
      obtain ⟨o, ho, heq⟩ := List.mem_map.mp hmem
      exact (dedupeRec_mem_find rest _ o ho).1 (heq ▸ List.mem_cons_self _ _)

/-- Origin of every candidate recipient: a selected roster row or an external
row, with non-empty email and the name-falls-back-to-email rule. -/
theorem mem_candidates (roster : List RosterRecord) (names : List String)
    (ext : List ExtRow) (r : Recipient)
    (h : r ∈ recipCandidates roster names ext) :
    r.email ≠ "" ∧ r.name ≠ "" ∧
      ((∃ src ∈ roster, r.email = pstrip src.Email ∧
          r.name = (if pstrip src.Name = "" then pstrip src.Email else pstrip src.Name) ∧
          r.team = pstrip src.Team ∧ r.title = pstrip src.Title ∧
          r.manager = pstrip src.ManagerEmail ∧ r.cc_default = src.IsCCDefault)
        ∨ (∃ p ∈ ext_norm ext, r.email = pstrip p.2 ∧
          r.name = (if pstrip p.1 = "" then pstrip p.2 else pstrip p.1) ∧
          r.team = "" ∧ r.title = "" ∧ r.manager = "" ∧ r.cc_default = false)) := by
  have main : (∃ src ∈ roster, r.email = pstrip src.Email ∧ pstrip src.Email ≠ "" ∧
        r.name = (if pstrip src.Name = "" then pstrip src.Email else pstrip src.Name) ∧
        r.team = pstrip src.Team ∧ r.title = pstrip src.Title ∧
        r.manager = pstrip src.ManagerEmail ∧ r.cc_default = src.IsCCDefault)
      ∨ (∃ p ∈ ext_norm ext, r.email = pstrip p.2 ∧ pstrip p.2 ≠ "" ∧
        r.name = (if pstrip p.1 = "" then pstrip p.2 else pstrip p.1) ∧
        r.team = "" ∧ r.title = "" ∧ r.manager = "" ∧ r.cc_default = false) := by
    rcases List.mem_append.mp h with hr | he
    · left
      unfold rosterRecipients at hr
      obtain ⟨src, hsrc, heq⟩ := List.mem_filterMap.mp hr
      have hsrc2 : src ∈ roster := by
        by_cases hn : names = []
        · rw [hn] at hsrc; simp at hsrc
        · rw [if_neg hn] at hsrc
          exact List.mem_of_mem_filter hsrc
      by_cases he : pstrip src.Email = ""
      · rw [if_pos he] at heq; exact absurd heq (by simp)
      · rw [if_neg he] at heq
        refine ⟨src, hsrc2, ?_⟩
        obtain rfl := Option.some.inj heq |>.symm
        exact ⟨rfl, he, rfl, rfl, rfl, rfl, rfl⟩
    · right
      unfold extRecipients at he
      obtain ⟨p, hp, heq⟩ := List.mem_filterMap.mp he
      by_cases hem : pstrip p.2 = ""
      · rw [if_pos hem] at heq; exact absurd heq (by simp)
      · rw [if_neg hem] at heq
        refine ⟨p, hp, ?_⟩
        obtain rfl := Option.some.inj heq |>.symm
        exact ⟨rfl, hem, rfl, rfl, rfl, rfl, rfl⟩
  rcases main with ⟨src, hsrc, hemail, hne, hname, hrest⟩ | ⟨p, hp, hemail, hne, hname, hrest⟩
  · refine ⟨hemail ▸ hne, ?_, Or.inl ⟨src, hsrc, hemail, hname, hrest⟩⟩
    rw [hname]
    by_cases hn : pstrip src.Name = ""
    · rw [if_pos hn]; exact hne
    · rw [if_neg hn]; exact hn
  · refine ⟨hemail ▸ hne, ?_, Or.inr ⟨p, hp, hemail, hname, hrest⟩⟩
    rw [hname]
    by_cases hn : pstrip p.1 = ""
    · rw [if_pos hn]; exact hne
    · rw [if_neg hn]; exact hn

/-! ## Roster-normalization lemmas -/

/-- A canonical column resolves exactly when some header matches it
case-insensitively after trimming. -/
theorem lastMatchIdx_isSome_iff (col : String) :
    ∀ hs : List String, (lastMatchIdx hs col).isSome = true
      ↔ ∃ h ∈ hs, plower (pstrip h) = plower col := by
  intro hs
  induction hs with
  | nil => simp [lastMatchIdx]
  | cons h rest ih =>
    simp only [lastMatchIdx]
    cases hr : lastMatchIdx rest col with
    | some j =>
      refine iff_of_true rfl ?_
      obtain ⟨w, hw, hpw⟩ := ih.mp (by rw [hr]; rfl)
      exact ⟨w, List.mem_cons_of_mem _ hw, hpw⟩
    | none =>
      by_cases hh : plower (pstrip h) = plower col
      · rw [if_pos hh]
        exact iff_of_true rfl ⟨h, List.mem_cons_self _ _, hh⟩
      · rw [if_neg hh]
        refine iff_of_false (by simp) ?_
        rintro ⟨w, hw, hpw⟩
        rcases List.mem_cons.mp hw with rfl | hw2
        · exact hh hpw
        · have hsome := ih.mpr ⟨w, hw2, hpw⟩
          rw [hr] at hsome
          exact absurd hsome (by simp)

/-- An accepted table's output is exactly the row-wise records filtered by
the both-empty rule. -/
theorem roster_norm_ok_eq (t : Table) (recs : List RosterRecord)
    (h : roster_norm t = Except.ok recs) :
    recs = (t.rows.map (recordOfRow t.headers)).filter
      (fun r => !(r.Name == "" && r.Email == "")) := by
  simp only [roster_norm] at h
  split_ifs at h with hmiss
  exact (Except.ok.inj h).symm

/-- Every string field `recordOfRow` produces is already trimmed. -/
theorem strField_trim (hs : List String) (row : List Cell) (col : String) :
    pstrip (strField hs row col) = strField hs row col := by
  unfold strField
  cases lastMatchIdx hs col with
  | some i => exact pstrip_coerceStr _
  | none => rfl

/-- The string fields of a record `roster_norm` emitted are already trimmed,
and its `Name`/`Email` are not both empty. -/
theorem roster_norm_mem_normalized (t : Table) (recs : List RosterRecord)
    (h : roster_norm t = Except.ok recs) :
    ∀ r ∈ recs,
      (pstrip r.Name = r.Name ∧ pstrip r.Email = r.Email ∧ pstrip r.Dept = r.Dept
        ∧ pstrip r.Title = r.Title ∧ pstrip r.Team = r.Team ∧ pstrip r.Role = r.Role
        ∧ pstrip r.Lang = r.Lang ∧ pstrip r.Timezone = r.Timezone
        ∧ pstrip r.ManagerEmail = r.ManagerEmail)
      ∧ ¬ (r.Name = "" ∧ r.Email = "") := by
  intro r hr
  rw [roster_norm_ok_eq t recs h] at hr
  have hp := (List.mem_filter.mp hr).2
  have hm := (List.mem_filter.mp hr).1
  obtain ⟨row, _, hrow⟩ := List.mem_map.mp hm
  constructor
  · rw [← hrow]
    exact ⟨strField_trim _ _ _, strField_trim _ _ _, strField_trim _ _ _,
      strField_trim _ _ _, strField_trim _ _ _, strField_trim _ _ _,
      strField_trim _ _ _, strField_trim _ _ _, strField_trim _ _ _⟩
  · exact not_and_or.mpr (by simpa using hp)

/-- A reader-stable, trimmed string survives serialization and re-coercion. -/
theorem coerceStr_mkCell (s : String) (htrim : pstrip s = s)
    (hstable : fragileCell s = false) :
    coerceStr (mkCell s) = s := by
  unfold mkCell
  by_cases hin : s ∈ naStrings
  · have hse : s = "" := by
      by_contra hne
      unfold fragileCell at hstable
      have h1 : naStrings.contains s = true := List.elem_iff.mpr hin
      have h2 : (s == "") = false := by
        rw [beq_eq_false_iff_ne]; exact hne
      rw [h1, h2] at hstable
      simp at hstable
    rw [if_pos hin, hse]; rfl
  · rw [if_neg hin]
    exact htrim

/-- A trimmed, reader-stable record re-read from its serialized row is
itself. -/
theorem recordOfRow_roundtrip (r : RosterRecord)
    (ht : pstrip r.Name = r.Name ∧ pstrip r.Email = r.Email ∧ pstrip r.Dept = r.Dept
      ∧ pstrip r.Title = r.Title ∧ pstrip r.Team = r.Team ∧ pstrip r.Role = r.Role
      ∧ pstrip r.Lang = r.Lang ∧ pstrip r.Timezone = r.Timezone
      ∧ pstrip r.ManagerEmail = r.ManagerEmail)
    (hc : stableRec r) :
    recordOfRow (REQ_COLS ++ OPT_COLS) (rowOfRecord r) = r := by
  obtain ⟨ht1, ht2, ht3, ht4, ht5, ht6, ht7, ht8, ht9⟩ := ht
  obtain ⟨hc1, hc2, hc3, hc4, hc5, hc6, hc7, hc8, hc9⟩ := hc
  have e1 : strField (REQ_COLS ++ OPT_COLS) (rowOfRecord r) "Name"
      = coerceStr (mkCell r.Name) := rfl
  have e2 : strField (REQ_COLS ++ OPT_COLS) (rowOfRecord r) "Email"
      = coerceStr (mkCell r.Email) := rfl
  have e3 : strField (REQ_COLS ++ OPT_COLS) (rowOfRecord r) "Dept"
      = coerceStr (mkCell r.Dept) := rfl
  have e4 : strField (REQ_COLS ++ OPT_COLS) (rowOfRecord r) "Title"
      = coerceStr (mkCell r.Title) := rfl
  have e5 : strField (REQ_COLS ++ OPT_COLS) (rowOfRecord r) "Team"
      = coerceStr (mkCell r.Team) := rfl
  have e6 : strField (REQ_COLS ++ OPT_COLS) (rowOfRecord r) "Role"
      = coerceStr (mkCell r.Role) := rfl
  have e7 : strField (REQ_COLS ++ OPT_COLS) (rowOfRecord r) "Lang"
      = coerceStr (mkCell r.Lang) := rfl
  have e8 : strField (REQ_COLS ++ OPT_COLS) (rowOfRecord r) "Timezone"
      = coerceStr (mkCell r.Timezone) := rfl
  have e9 : strField (REQ_COLS ++ OPT_COLS) (rowOfRecord r) "ManagerEmail"
      = coerceStr (mkCell r.ManagerEmail) := rfl
  have e10 : boolField (REQ_COLS ++ OPT_COLS) (rowOfRecord r) = r.IsCCDefault := rfl
  unfold recordOfRow
  rw [e1, e2, e3, e4, e5, e6, e7, e8, e9, e10,
    coerceStr_mkCell _ ht1 hc1, coerceStr_mkCell _ ht2 hc2, coerceStr_mkCell _ ht3 hc3,
    coerceStr_mkCell _ ht4 hc4, coerceStr_mkCell _ ht5 hc5, coerceStr_mkCell _ ht6 hc6,
    coerceStr_mkCell _ ht7 hc7, coerceStr_mkCell _ ht8 hc8, coerceStr_mkCell _ ht9 hc9]

/-! ## The claims -/

/-- C1: for every roster, selection and external list, `build_recipients`
returns the candidate recipients (roster rows before external rows)
deduplicated by lower-cased email with the first occurrence winning, in the
input order of first occurrence, every email non-empty after trimming and
every candidate email represented; on the spec's example, the roster row's
metadata wins over the case-variant external duplicate. -/
theorem C1_build_recipients :
    (∀ (roster : List RosterRecord) (names : List String) (ext : List ExtRow),
      (build_recipients roster names ext).Sublist (recipCandidates roster names ext)
      ∧ ((build_recipients roster names ext).map (fun r => plower r.email)).Nodup
      ∧ (∀ c ∈ recipCandidates roster names ext,
          ∃ o ∈ build_recipients roster names ext, plower o.email = plower c.email)
      ∧ (∀ o ∈ build_recipients roster names ext,
          (recipCandidates roster names ext).find?
            (fun c => plower c.email == plower o.email) = some o)
      ∧ (∀ o ∈ build_recipients roster names ext, o.email ≠ ""))
    ∧ build_recipients [kimRosterRow] ["Kim"] [⟨Cell.str "Kim", Cell.str "KIM@x.com"⟩]
        = [kimRecipient] := by
  constructor
  · intro roster names ext
    refine ⟨dedupeRec_sublist _ [], dedupeRec_nodup _ [], ?_, ?_, ?_⟩
    · intro c hc
      rcases dedupeRec_covers _ [] c hc with hin | hex
      · simp at hin
      · exact hex
    · intro o ho
      exact (dedupeRec_mem_find _ [] o ho).2
    · intro o ho
      have hc : o ∈ recipCandidates roster names ext :=
        List.Sublist.mem ho (dedupeRec_sublist _ [])
      exact (mem_candidates roster names ext o hc).1
  · decide

/-- C2: with an empty selection `build_recipients` includes no roster rows —
its result is what an empty roster would give — and with an empty external
list as well the result is empty, whatever the roster holds. -/
theorem C2_empty_selection :
    (∀ (roster : List RosterRecord) (ext : List ExtRow),
        build_recipients roster [] ext = build_recipients [] [] ext)
    ∧ (∀ roster : List RosterRecord, build_recipients roster [] [] = []) := by
  constructor
  · intro roster ext
    rfl
  · intro roster
    rfl

/-- C3 (amended): `cc_for` equals the spec's effective-CC rule amended with
trimming — manual CC plus the manager when `cc_default` holds and the manager
is non-empty, deduplicated case-insensitively in first-seen order with each
entry trimmed and empties dropped, then the recipient's own address removed —
and the spec's concrete example holds. -/
theorem C3_cc_for_amended :
    (∀ (recipient : Recipient) (manualCc : List String),
        cc_for recipient manualCc = specEffectiveCcTrimmed recipient manualCc)
    ∧ cc_for ccExampleRecipient ["boss@x.com", "c@x.com", "a@x.com"]
        = ["boss@x.com", "c@x.com"] := by
  constructor
  · intro recipient manualCc
    have h := uniqGo_eq_foldl
      (manualCc ++ (if recipient.cc_default = true ∧ recipient.manager ≠ ""
        then [recipient.manager] else []))
      [] [] (by simp)
    rw [List.nil_append] at h
    simp only [cc_for, specEffectiveCcTrimmed, uniq, h]
  · decide

/-- C3 (counterexample): on the manual CC list `[" c@x.com "]` the code trims
the entry while the spec's literal rule keeps it verbatim, so `cc_for` does
not equal the claimed untrimmed deduplication. -/
theorem C3_counterexample :
    cc_for ccExampleRecipient [" c@x.com "] = ["c@x.com", "boss@x.com"]
    ∧ specEffectiveCc ccExampleRecipient [" c@x.com "] = [" c@x.com ", "boss@x.com"]
    ∧ cc_for ccExampleRecipient [" c@x.com "]
        ≠ specEffectiveCc ccExampleRecipient [" c@x.com "] :=
  ⟨by decide, by decide, by decide⟩

/-- C4: `roster_norm` fails exactly when a required column — `Name` or
`Email` — has no header matching it case-insensitively after trimming. -/
theorem C4_missing_required_column :
    ∀ t : Table, (∃ e, roster_norm t = Except.error e)
      ↔ ¬ ((∃ h ∈ t.headers, plower (pstrip h) = plower "Name")
            ∧ (∃ h ∈ t.headers, plower (pstrip h) = plower "Email")) := by
  intro t
  rw [← lastMatchIdx_isSome_iff "Name" t.headers, ← lastMatchIdx_isSome_iff "Email" t.headers]
  unfold roster_norm
  by_cases h1 : (lastMatchIdx t.headers "Name").isSome = true
    <;> by_cases h2 : (lastMatchIdx t.headers "Email").isSome = true
  · have hn1 : (lastMatchIdx t.headers "Name").isNone = false :=
      (Option.isNone_eq_false_iff _).mpr h1
    have hn2 : (lastMatchIdx t.headers "Email").isNone = false :=
      (Option.isNone_eq_false_iff _).mpr h2
    simp [REQ_COLS, List.filter_cons, hn1, hn2, h1, h2]
  · have hn1 : (lastMatchIdx t.headers "Name").isNone = false :=
      (Option.isNone_eq_false_iff _).mpr h1
    have hn2 : (lastMatchIdx t.headers "Email").isNone = true :=
      Option.not_isSome.mp (Bool.eq_false_iff.mpr h2)
    simp [REQ_COLS, List.filter_cons, hn1, hn2, h1, h2]
  · have hn1 : (lastMatchIdx t.headers "Name").isNone = true :=
      Option.not_isSome.mp (Bool.eq_false_iff.mpr h1)
    simp [REQ_COLS, List.filter_cons, hn1, h1]
  · have hn1 : (lastMatchIdx t.headers "Name").isNone = true :=
      Option.not_isSome.mp (Bool.eq_false_iff.mpr h1)
    simp [REQ_COLS, List.filter_cons, hn1, h1]

/-- C5: on an accepted table the output is exactly the per-row records with
the rows whose `Name` and `Email` are both empty after trimming removed, and
a row's record is in the output exactly when they are not both empty — no
other filtering. -/
theorem C5_row_filter :
    ∀ (t : Table) (recs : List RosterRecord), roster_norm t = Except.ok recs →
      recs = (t.rows.map (recordOfRow t.headers)).filter
          (fun r => !(r.Name == "" && r.Email == ""))
      ∧ (∀ row ∈ t.rows, (recordOfRow t.headers row ∈ recs
          ↔ ¬ ((recordOfRow t.headers row).Name = ""
                ∧ (recordOfRow t.headers row).Email = ""))) := by
  intro t recs h
  have hrecs := roster_norm_ok_eq t recs h
  refine ⟨hrecs, ?_⟩
  intro row hrow
  rw [hrecs]
  constructor
  · intro hmem
    have hp := (List.mem_filter.mp hmem).2
    exact not_and_or.mpr (by simpa using hp)
  · intro hk
    refine List.mem_filter.mpr ⟨List.mem_map_of_mem _ hrow, ?_⟩
    simpa using not_and_or.mp hk

/-- C5 witness: the claim applied to `witnessTable`, whose second row is
dropped. -/
theorem C5_witness :
    [witnessRecord] = (witnessTable.rows.map (recordOfRow witnessTable.headers)).filter
        (fun r => !(r.Name == "" && r.Email == ""))
    ∧ (∀ row ∈ witnessTable.rows, (recordOfRow witnessTable.headers row ∈ [witnessRecord]
        ↔ ¬ ((recordOfRow witnessTable.headers row).Name = ""
              ∧ (recordOfRow witnessTable.headers row).Email = ""))) :=
  C5_row_filter witnessTable [witnessRecord] (by rfl)

/-- C6: the splitter agrees with the spec's description everywhere, and on
the spec's two examples. -/
theorem C6_split_subject_body :
    (∀ (text fallback : String),
        parse_subject_body text fallback = specSplitSubjectBody text fallback)
    ∧ parse_subject_body "Subject: Hello\nBody line" "Fallback" = ("Hello", "Body line")
    ∧ parse_subject_body "No subject marker here" "Fallback"
        = ("Fallback", "No subject marker here") := by
  refine ⟨?_, by decide, by decide⟩
  intro text fallback
  simp only [parse_subject_body, specSplitSubjectBody]
  cases hl : pylines (pstrip text) with
  | nil => rfl
  | cons l0 rest =>
    dsimp only
    by_cases hm : "subject:".data.isPrefixOf (plower l0).data = true
    · rw [if_pos hm, if_pos ((marker_take (plower l0)).mp hm)]
      rw [afterColon_drop l0]
    · rw [if_neg hm, if_neg (fun hcontra => hm ((marker_take (plower l0)).mpr hcontra))]

/-- C7: boolean coercion agrees with the spec's rule on every cell —
booleans pass through, anything else is true exactly when its stringified,
trimmed, lower-cased form is a truthy word — and on the four examples. -/
theorem C7_b_coercion :
    (∀ v : Cell, b v = specCoerceBool v)
    ∧ b (Cell.str "YES") = true ∧ b (Cell.str "0") = false
    ∧ b (Cell.str " On ") = true ∧ b (Cell.str "") = false :=
  ⟨b_eq_specCoerceBool, by decide, by decide, by decide, by decide⟩

/-- C8: `build_prompt` fails exactly when the kind is outside the five
recognized template kinds; for those five it returns a prompt. -/
theorem C8_build_prompt_kind :
    ∀ (kind : String) (m : MeetingMeta) (p : Payload),
      (∃ e, build_prompt kind m p = Except.error e)
        ↔ kind ∉ (["memo", "transcript", "agenda", "invite", "followup"] : List String) := by
  intro kind m p
  unfold build_prompt
  by_cases h1 : kind = "memo"
  · simp [h1]
  · by_cases h2 : kind = "transcript"
    · simp [h1, h2]
    · by_cases h3 : kind = "agenda"
      · simp [h1, h2, h3]
      · by_cases h4 : kind = "invite"
        · simp [h1, h2, h3, h4]
        · by_cases h5 : kind = "followup"
          · simp [h1, h2, h3, h4, h5]
          · simp [h1, h2, h3, h4, h5]

/-- C10: every recipient `build_recipients` returns has a non-empty email
and a non-empty name, and its name is the source row's trimmed `Name` when
that is non-empty, else the row's email — for roster and external rows
alike. -/
theorem C10_output_wellformed :
    ∀ (roster : List RosterRecord) (names : List String) (ext : List ExtRow)
      (r : Recipient), r ∈ build_recipients roster names ext →
      r.email ≠ "" ∧ r.name ≠ "" ∧
        ((∃ src ∈ roster, r.email = pstrip src.Email ∧
            r.name = (if pstrip src.Name = "" then pstrip src.Email else pstrip src.Name))
          ∨ (∃ p ∈ ext_norm ext, r.email = pstrip p.2 ∧
            r.name = (if pstrip p.1 = "" then pstrip p.2 else pstrip p.1))) := by
  intro roster names ext r h
  have hc : r ∈ recipCandidates roster names ext :=
    List.Sublist.mem h (dedupeRec_sublist _ [])
  obtain ⟨h1, h2, h3⟩ := mem_candidates roster names ext r hc
  refine ⟨h1, h2, ?_⟩
  rcases h3 with ⟨src, hsrc, hemail, hname, _⟩ | ⟨p, hp, hemail, hname, _⟩
  · exact Or.inl ⟨src, hsrc, hemail, hname⟩
  · exact Or.inr ⟨p, hp, hemail, hname⟩

/-- C10 witness: the claim applied to the spec example's resolved
recipient. -/
theorem C10_witness :
    kimRecipient.email ≠ "" ∧ kimRecipient.name ≠ "" ∧
      ((∃ src ∈ [kimRosterRow], kimRecipient.email = pstrip src.Email ∧
          kimRecipient.name
            = (if pstrip src.Name = "" then pstrip src.Email else pstrip src.Name))
        ∨ (∃ p ∈ ext_norm [], kimRecipient.email = pstrip p.2 ∧
          kimRecipient.name = (if pstrip p.1 = "" then pstrip p.2 else pstrip p.1))) :=
  C10_output_wellformed [kimRosterRow] ["Kim"] [] kimRecipient (by decide)

end App
